import Mathlib

/-!
Verification of the dataset-construction core of TagLab's `source/NewDataset.py`
(class `NewDataset`).  Geometry is embedded over `ℚ` (the Python code works on
exact integer/half-integer pixel coordinates, so rational arithmetic models the
float computations exactly on every input considered here); boxes follow the
source convention `(top, left, width, height)`.
-/

namespace NewDataset

/-- An axis-aligned box stored as `(top, left, width, height)`, as the Python
lists `[top, left, w, h]` used throughout `NewDataset`. -/
structure Box where
  top : ℚ
  left : ℚ
  w : ℚ
  h : ℚ
deriving DecidableEq

/-- `bbox_intersection` (lines 94-128): convert both boxes to corner form,
return `0.0` when they are disjoint, otherwise the area of the overlap
rectangle. -/
def bbox_intersection (bbox1 bbox2 : Box) : ℚ :=
  let x_left := max bbox1.left bbox2.left
  let y_top := max bbox1.top bbox2.top
  let x_right := min (bbox1.left + bbox1.w) (bbox2.left + bbox2.w)
  let y_bottom := min (bbox1.top + bbox1.h) (bbox2.top + bbox2.h)
  if x_right < x_left ∨ y_bottom < y_top then 0
  else (x_right - x_left) * (y_bottom - y_top)

/-- `isFullyInsideBBox` (lines 71-91): is `bbox1` inside `bbox2`?  The test is
`top1 >= top2 and left1 >= left2 and top1 + h1 < top2 + h2 and
left1 + w1 < left2 + w2`. -/
def isFullyInsideBBox (bbox1 bbox2 : Box) : Bool :=
  if bbox1.top ≥ bbox2.top ∧ bbox1.left ≥ bbox2.left ∧
      bbox1.top + bbox1.h < bbox2.top + bbox2.h ∧
      bbox1.left + bbox1.w < bbox2.left + bbox2.w
  then true else false

/-- Modelled from the spec: `expand(A, ε)` grows a box by `ε` on every side
(the spec's §8 uses it only to state the containment property of
`isFullyInside`; it does not occur in the source). -/
def expand (b : Box) (eps : ℚ) : Box :=
  ⟨b.top - eps, b.left - eps, b.w + 2 * eps, b.h + 2 * eps⟩

/-- A box with integer pixel coordinates, used where the source indexes the
label raster or draws random integer coordinates. -/
structure IBox where
  top : ℤ
  left : ℤ
  w : ℤ
  h : ℤ
deriving DecidableEq

/-- View an integer box as a rational box. -/
def IBox.box (a : IBox) : Box :=
  ⟨(a.top : ℚ), (a.left : ℚ), (a.w : ℚ), (a.h : ℚ)⟩

/-- An annotated entity ("blob").  Its bounding box has integer pixel
coordinates; `mask` is the binary raster local to the bounding box, indexed as
`mask row col` (the Python `mask[py, px]`). -/
structure Blob where
  class_name : String
  bboxTop : ℤ
  bboxLeft : ℤ
  bboxW : ℤ
  bboxH : ℤ
  area : ℚ
  mask : ℤ → ℤ → ℕ

/-- The blob's bounding box `[top, left, w, h]` as a rational box. -/
def Blob.box (b : Blob) : Box :=
  ⟨(b.bboxTop : ℚ), (b.bboxLeft : ℚ), (b.bboxW : ℚ), (b.bboxH : ℚ)⟩

/-- `checkBlobInside` (lines 131-143): the blob counts as inside `area` when
`bbox_intersection(area, blob.bbox) / (blob.bbox[2] * blob.bbox[3])` exceeds
the threshold. -/
def checkBlobInside (area : Box) (blob : Blob) (threshold : ℚ) : Bool :=
  let intersection := bbox_intersection area blob.box
  let perc_inside := intersection / ((blob.bboxW : ℚ) * (blob.bboxH : ℚ))
  if perc_inside > threshold then true else false

/-- `computeFrequencies` (lines 146-166): per target class, the summed area of
its blobs divided by the total map pixel area. -/
def computeFrequencies (blobs : List Blob) (map_w map_h : ℤ)
    (target_classes : List String) : List ℚ :=
  target_classes.map (fun class_name =>
    ((blobs.filter (fun b => b.class_name == class_name)).map Blob.area).sum /
      ((map_w : ℚ) * (map_h : ℚ)))

/-- `computeExactCoverage` (lines 169-189): for each class index `i+1`
(background `0` skipped), the fraction of pixels of the window
`labels[top:top+h, left:left+w]` holding that index. -/
def computeExactCoverage (labels : ℤ → ℤ → ℕ) (area : IBox)
    (target_classes : List String) : List ℚ :=
  let A : ℚ := ((area.w * area.h : ℤ) : ℚ)
  (List.range target_classes.length).map (fun i =>
    let idx := i + 1
    let count := ((List.range area.h.toNat).map (fun r =>
      ((List.range area.w.toNat).filter
        (fun c => labels (area.top + (r : ℤ)) (area.left + (c : ℤ)) == idx)).length)).sum
    ((count : ℚ) / A))

/-- The list `areas` that `calculateMetrics` collects for class `i`
(lines 202-208): empty when the precomputed frequency of the class is not
positive (the blob loop is skipped entirely), otherwise the areas of the blobs
of that class passing the 3/4-rule containment test. -/
def collectAreas (blobs : List Blob) (frequencies : List ℚ) (area : Box)
    (target_classes : List String) (i : ℕ) : List ℚ :=
  if frequencies.getD i 0 > 0 then
    (blobs.filter (fun b =>
      b.class_name == target_classes.getD i "" && checkBlobInside area b (3 / 4))).map Blob.area
  else []

/-- `np.mean` of a list of rationals. -/
def mean (l : List ℚ) : ℚ := l.sum / (l.length : ℚ)

/-- The square of `np.std` (population standard deviation, no Bessel
correction): mean of the squared deviations from the mean. -/
def popVar (l : List ℚ) : ℚ :=
  (l.map (fun x => (x - mean l) ^ 2)).sum / (l.length : ℚ)

/-- The PSCV value appended for one class (lines 213-222):
`100 * np.std(areas) / np.mean(areas)` when `areas` is non-empty, else `0.0`.
Stated relationally because the standard deviation is a real square root. -/
def pscvIs (l : List ℚ) (v : ℝ) : Prop :=
  if 0 < l.length then v = 100 * Real.sqrt ((popVar l : ℚ) : ℝ) / ((mean l : ℚ) : ℝ)
  else v = 0

/-- `calculateMetrics` (lines 192-227).  Returns the per-class entity counts,
the exact coverage, and the per-class collected `areas` lists (the PSCV of
class `i` is the unique `v` with `pscvIs (areasLists i) v`, see `pscvIs`).
`frequencies` is `none` before `computeFrequencies` has run
(`self.frequencies = None`); indexing `None` raises in Python, modelled by
returning `none`. -/
def calculateMetrics (blobs : List Blob) (labels : ℤ → ℤ → ℕ)
    (frequencies : Option (List ℚ)) (area : IBox) (target_classes : List String) :
    Option (List ℕ × List ℚ × List (List ℚ)) :=
  match frequencies with
  | none => none
  | some freqs =>
    let areasLists := (List.range target_classes.length).map
      (fun i => collectAreas blobs freqs area.box target_classes i)
    some (areasLists.map List.length, computeExactCoverage labels area target_classes, areasLists)

/-- One Phase-2 tuple of `findAreas` (line 372): the candidate box together
with its aggregated score (`area_info.sort` and the final selection loop only
inspect fields `[0]` and `[2]` of the tuple, so the per-class score list is
omitted). -/
structure Candidate where
  box : Box
  score : ℚ
deriving DecidableEq

/-- The comparison used by `area_info.sort(key=lambda x: x[2])`. -/
def scoreLe (a b : Candidate) : Prop := a.score ≤ b.score

instance : DecidableRel scoreLe := fun a b => inferInstanceAs (Decidable (a.score ≤ b.score))

instance : IsTotal Candidate scoreLe := ⟨fun a b => le_total a.score b.score⟩

instance : IsTrans Candidate scoreLe := ⟨fun _ _ _ h1 h2 => le_trans h1 h2⟩

/-- The selection step of `findAreas` (lines 375-399): sort the Phase-2
candidates ascending by aggregated score (Python's stable sort, modelled by a
stable insertion sort), take the head as the validation area, then scan the
sorted list for the first candidate whose bbox intersection with the
validation area is `< 10.0` and return it as the test area.  When the scan
finds no such candidate the Python function falls through its `for` loop with
the local variable `test_area` never assigned, so the `return` raises
`UnboundLocalError`; this crash is modelled by `none`. -/
def selectAreas (area_info : List Candidate) : Option (Box × Box) :=
  let sorted := area_info.insertionSort scoreLe
  match sorted with
  | [] => none
  | val :: _ =>
    (sorted.find? (fun c => bbox_intersection val.box c.box < 10)).map
      (fun c => (val.box, c.box))

/-- Python's `int(...)` applied to a float: truncation toward zero. -/
def pyInt (q : ℚ) : ℤ := if 0 ≤ q then ⌊q⌋ else ⌈q⌉

/-- `sampleAreaUniformly` (lines 510-542): a regular `tile_rows × tile_cols`
grid of tile centers over `area`, shifted by half the (possibly negative)
leftover slack and by the `(tile_size - crop_size) / 2` crop-centering offset.
`crop_size` is the field `self.crop_size` (513 in the source). -/
def sampleAreaUniformly (crop_size : ℤ) (area : Box) (tile_size step : ℤ) :
    List (ℚ × ℚ) :=
  let area_W := area.w
  let area_H := area.h
  let tile_cols : ℤ := 1 + pyInt (area_W / (step : ℚ))
  let tile_rows : ℤ := 1 + pyInt (area_H / (step : ℚ))
  let deltaW : ℤ := pyInt ((area_W - ((tile_cols * step : ℤ) : ℚ)) / 2)
  let deltaH : ℤ := pyInt ((area_H - ((tile_rows * step : ℤ) : ℚ)) / 2)
  let off : ℤ := pyInt (((tile_size - crop_size : ℤ) : ℚ) / 2)
  let area_top : ℚ := area.top + (deltaH : ℚ) - (off : ℚ)
  let area_left : ℚ := area.left + (deltaW : ℚ) - (off : ℚ)
  (List.range tile_rows.toNat).flatMap (fun (row : ℕ) =>
    (List.range tile_cols.toNat).map (fun (col : ℕ) =>
      let top := area_top + ((row : ℕ) : ℚ) * (step : ℚ)
      let left := area_left + ((col : ℕ) : ℚ) * (step : ℚ)
      (left + (tile_size : ℚ) / 2, top + (tile_size : ℚ) / 2)))

/-- `cleanTrainingTiles` (lines 545-567): keep a training tile `(x, y)` iff the
`(crop_size + 10)`-sided box centered on it intersects the validation area by
strictly less than `10.0` px² and likewise the test area. -/
def cleanTrainingTiles (crop_size : ℤ) (val_area test_area : Box)
    (training_tiles : List (ℚ × ℚ)) : List (ℚ × ℚ) :=
  let size : ℚ := (crop_size : ℚ) + 10
  let half_size : ℚ := size / 2
  training_tiles.filter (fun tile =>
    let bbox : Box := ⟨tile.2 - half_size, tile.1 - half_size, size, size⟩
    let areaV := bbox_intersection bbox val_area
    let areaT := bbox_intersection bbox test_area
    decide (areaV < 10 ∧ areaT < 10))

/-- The per-class-index radius values of `compute_radius_map` (lines 779-789):
raw value `0` (background) is the sum of all frequencies, raw value `i+1` is
`frequencies[i]`; the values are then shifted by the minimum, divided by
`max - min` and rescaled to `[radius_min, radius_max]`.  The source performs
the division unconditionally; when `max = min` numpy computes `0.0 / 0.0 = NaN`
(in this rational model, division by zero yields `0`). -/
def radiusValues (frequencies : List ℚ) (radius_min radius_max : ℚ) : List ℚ :=
  let raw := frequencies.sum :: frequencies
  let f_min := raw.foldl min frequencies.sum
  let f_max := raw.foldl max frequencies.sum
  raw.map (fun x =>
    ((x - f_min) / (f_max - f_min)) * (radius_max - radius_min) + radius_min)

/-- Modelled from the spec: the same normalization but with the guard the spec
describes — "if all frequencies equal (max==min), define normalized value as a
fixed midpoint (e.g., 0.5) rather than dividing by zero". -/
def radiusValuesSpec (frequencies : List ℚ) (radius_min radius_max : ℚ) : List ℚ :=
  let raw := frequencies.sum :: frequencies
  let f_min := raw.foldl min frequencies.sum
  let f_max := raw.foldl max frequencies.sum
  raw.map (fun x =>
    let t := if f_max = f_min then (1 : ℚ) / 2 else (x - f_min) / (f_max - f_min)
    t * (radius_max - radius_min) + radius_min)

/-- `rnd.randint(a, b)` draws a uniform integer in `[a, b]`; it is modelled by
reducing the next raw value of the pseudo-random stream into the interval. -/
def randint (a b : ℤ) (raw : ℤ) : ℤ := a + raw.emod (b - a + 1)

/-- Squared euclidean distance between two integer points `(x, y)`, the
`(sample[0] - px) * (sample[0] - px) + (sample[1] - py) * (sample[1] - py)`
under the `math.sqrt` call of lines 685 and 716. -/
def sqDist (p q : ℤ × ℤ) : ℚ :=
  ((p.1 - q.1 : ℤ) : ℚ) * ((p.1 - q.1 : ℤ) : ℚ) +
    ((p.2 - q.2 : ℤ) : ℚ) * ((p.2 - q.2 : ℤ) : ℚ)

/-- The rejection comparison `math.sqrt dsq < (r1 + r2) / 2.0` of lines
686 and 717, taken with `s = r1 + r2` and stated without square roots or
divisions: for `dsq ≥ 0` the comparison holds iff `s` is positive and
`4·dsq < s·s` (the equivalence with the real comparison is
`sqrtLt_eq_false_imp_le_sqrt` below). -/
def sqrtLt (dsq s : ℚ) : Bool := decide (0 < s) && decide (4 * dsq < s * s)

/-- The acceptance test of lines 682-688 (and 713-719): the candidate `p` is
accepted iff no already-accepted sample lies strictly closer than the average
of the two radius-map values (`r1 = radius_map[py, px]` at the candidate,
`r2 = radius_map[sample[1], sample[0]]` at the sample). -/
def acceptOk (R : ℤ → ℤ → ℚ) (samples : List (ℤ × ℤ)) (p : ℤ × ℤ) : Bool :=
  samples.all (fun s => ! sqrtLt (sqDist s p) (R p.2 p.1 + R s.2 s.1))

/-- One iteration of the `for i in range(...)` loop of
`importanceSamplingBlob` (lines 671-691), `centroid=False` path: draw a random
point of the blob's bounding box; if it lies inside the mask, move it to map
coordinates and append it iff it passes the acceptance test against every
sample accepted so far.  The state is the accepted-sample list plus the next
index into the random stream `g`; every iteration consumes two stream
values. -/
def blobStep (R : ℤ → ℤ → ℚ) (g : ℕ → ℤ) (blob : Blob)
    (st : List (ℤ × ℤ) × ℕ) (_i : ℕ) : List (ℤ × ℤ) × ℕ :=
  let px0 := randint 1 (blob.bboxW - 1) (g st.2)
  let py0 := randint 1 (blob.bboxH - 1) (g (st.2 + 1))
  if blob.mask py0 px0 = 1 then
    let px := px0 + blob.bboxLeft
    let py := py0 + blob.bboxTop
    if acceptOk R st.1 (px, py) then (st.1 ++ [(px, py)], st.2 + 2)
    else (st.1, st.2 + 2)
  else (st.1, st.2 + 2)

/-- `importanceSamplingBlob` (lines 656-693) along the `centroid=False` path
used by `sampleAreaImportanceSampling`: 30 iterations of `blobStep` on the
shared sample list. -/
def importanceSamplingBlob (R : ℤ → ℤ → ℚ) (g : ℕ → ℤ) (blob : Blob)
    (st : List (ℤ × ℤ) × ℕ) : List (ℤ × ℤ) × ℕ :=
  (List.range 30).foldl (blobStep R g blob) st

/-- One iteration of the loop of `importanceSamplingSubArea` (lines 707-722):
draw a random point of the sub-area and append it iff it passes the acceptance
test against every sample accepted so far. -/
def subAreaStep (R : ℤ → ℤ → ℚ) (g : ℕ → ℤ) (area : IBox)
    (st : List (ℤ × ℤ) × ℕ) (_i : ℕ) : List (ℤ × ℤ) × ℕ :=
  let px := randint area.left (area.left + area.w - 1) (g st.2)
  let py := randint area.top (area.top + area.h - 1) (g (st.2 + 1))
  if acceptOk R st.1 (px, py) then (st.1 ++ [(px, py)], st.2 + 2)
  else (st.1, st.2 + 2)

/-- `importanceSamplingSubArea` (lines 696-724): 30 iterations of
`subAreaStep` on the shared sample list. -/
def importanceSamplingSubArea (R : ℤ → ℤ → ℚ) (g : ℕ → ℤ) (area : IBox)
    (st : List (ℤ × ℤ) × ℕ) : List (ℤ × ℤ) × ℕ :=
  (List.range 30).foldl (subAreaStep R g area) st

/-- The fixed priority list of rare classes of line 736. -/
def rareClasses : List String :=
  ["Montipora_crust/patula", "Pocillopora_eydouxi", "Pocillopora",
   "Porite_massive", "Montipora_plate/flabellata"]

/-- `sampleAreaImportanceSampling` (lines 727-771): first, for every rare class
in priority order and every blob of that class, run the per-blob sampler on the
shared sample list; then sweep a `1024/256` coarse grid over `area` (the last
row/column clamped by lines 758-762, note the clamp drops the `area` origin
offset exactly as the source does) and run the sub-area sampler on each cell,
still sharing the sample list.  Returns the accepted `(x, y)` samples. -/
def sampleAreaImportanceSampling (R : ℤ → ℤ → ℚ) (g : ℕ → ℤ) (blobs : List Blob)
    (area : IBox) : List (ℤ × ℤ) :=
  let st0 : List (ℤ × ℤ) × ℕ := ([], 0)
  let st1 := rareClasses.foldl (fun st class_name =>
    blobs.foldl (fun st blob =>
      if blob.class_name == class_name then importanceSamplingBlob R g blob st
      else st) st) st0
  let tile_size : ℤ := 1024
  let step : ℤ := 256
  let tile_cols : ℤ := 1 + pyInt ((area.w : ℚ) / (step : ℚ))
  let tile_rows : ℤ := 1 + pyInt ((area.h : ℚ) / (step : ℚ))
  let st2 := (List.range tile_rows.toNat).foldl (fun st (row : ℕ) =>
    (List.range tile_cols.toNat).foldl (fun st (col : ℕ) =>
      let top0 := area.top + ((row : ℕ) : ℤ) * step
      let left0 := area.left + ((col : ℕ) : ℤ) * step
      let left1 := if left0 + tile_size > area.left + area.w - 1
        then area.w - tile_size - 1 else left0
      let top1 := if top0 + tile_size > area.top + area.h - 1
        then area.h - tile_size - 1 else top0
      importanceSamplingSubArea R g ⟨top1, left1, tile_size, tile_size⟩ st) st) st1
  st2.1

/-- Modelled from the spec (the wording of claim C3): a per-entity sampler
that draws up to 1000 random points and accepts a point against the points
previously accepted *for this entity only* (the per-draw behaviour is the
`blobStep` of the source, started on an empty own list); the entity's accepted
points are then appended to the shared list.  For comparison with
`importanceSamplingBlob`. -/
def claimSamplingBlob (R : ℤ → ℤ → ℚ) (g : ℕ → ℤ) (blob : Blob)
    (st : List (ℤ × ℤ) × ℕ) : List (ℤ × ℤ) × ℕ :=
  let own := (List.range 1000).foldl (blobStep R g blob) (([] : List (ℤ × ℤ)), st.2)
  (st.1 ++ own.1, own.2)

/-! ### Basic facts and claim theorems. -/

/-- Claim C9: `isFullyInsideBBox` performs the strict containment test
`inner.top ≥ outer.top ∧ inner.left ≥ outer.left ∧
inner.top + inner.h < outer.top + outer.h ∧
inner.left + inner.w < outer.left + outer.w`; consequently
`isFullyInsideBBox A A` is false for every box `A`, while
`isFullyInsideBBox A (expand A ε)` is true for every `ε > 0`. -/
theorem isFullyInsideBBox_strict :
    (∀ b1 b2 : Box, isFullyInsideBBox b1 b2 = true ↔
      (b1.top ≥ b2.top ∧ b1.left ≥ b2.left ∧
        b1.top + b1.h < b2.top + b2.h ∧ b1.left + b1.w < b2.left + b2.w)) ∧
    (∀ A : Box, isFullyInsideBBox A A = false) ∧
    (∀ (A : Box) (eps : ℚ), 0 < eps → isFullyInsideBBox A (expand A eps) = true) := by
  refine ⟨fun b1 b2 => ?_, fun A => ?_, fun A eps heps => ?_⟩
  · simp [isFullyInsideBBox]
  · simp [isFullyInsideBBox]
  · simp only [isFullyInsideBBox, expand, ge_iff_le, if_true_left]
    rw [if_pos]
    refine ⟨by linarith, by linarith, by linarith, by linarith⟩

/-- Witness for C9: a concrete box is strictly inside its `ε = 1` expansion. -/
theorem isFullyInsideBBox_strict_witness :
    isFullyInsideBBox ⟨0, 0, 5, 5⟩ (expand ⟨0, 0, 5, 5⟩ 1) = true :=
  isFullyInsideBBox_strict.2.2 ⟨0, 0, 5, 5⟩ 1 (by norm_num)

/-- Claim C8 (amended): the cleaning pass keeps a training tile iff its
`(crop_size + 10)`-sided box centered on the tile intersects the validation
region by strictly less than 10 px² and the test region by strictly less than
10 px² (so a tile is dropped as soon as one of the two intersections is at
least 10 px²; a tile whose padded box overlaps both regions by exactly 0 px²
is kept). -/
theorem cleanTrainingTiles_mem :
    ∀ (crop_size : ℤ) (val_area test_area : Box) (tiles : List (ℚ × ℚ)) (t : ℚ × ℚ),
      t ∈ cleanTrainingTiles crop_size val_area test_area tiles ↔
        (t ∈ tiles ∧
          bbox_intersection ⟨t.2 - ((crop_size : ℚ) + 10) / 2,
            t.1 - ((crop_size : ℚ) + 10) / 2,
            (crop_size : ℚ) + 10, (crop_size : ℚ) + 10⟩ val_area < 10 ∧
          bbox_intersection ⟨t.2 - ((crop_size : ℚ) + 10) / 2,
            t.1 - ((crop_size : ℚ) + 10) / 2,
            (crop_size : ℚ) + 10, (crop_size : ℚ) + 10⟩ test_area < 10) := by
  intro crop_size val_area test_area tiles t
  simp [cleanTrainingTiles, List.mem_filter, and_assoc]

/-- Counterexample to claim C8 as stated: with the default `crop_size = 513`,
the padded box of the tile `(300, 300)` intersects the validation region
`[top 75/2, left 77/2, w 10, h 2]` by exactly 10 px² (and the test region by
0 px²), yet the cleaning pass drops the tile; the claim's "by more than
10 px²" would keep it. -/
theorem cleanTrainingTiles_drops_at_exactly_ten :
    bbox_intersection ⟨300 - 523 / 2, 300 - 523 / 2, 523, 523⟩ ⟨75 / 2, 77 / 2, 10, 2⟩ = 10 ∧
    bbox_intersection ⟨300 - 523 / 2, 300 - 523 / 2, 523, 523⟩ ⟨2000, 2000, 1, 1⟩ = 0 ∧
    cleanTrainingTiles 513 ⟨75 / 2, 77 / 2, 10, 2⟩ ⟨2000, 2000, 1, 1⟩ [(300, 300)] = [] := by
  refine ⟨by norm_num [bbox_intersection], by norm_num [bbox_intersection], ?_⟩
  norm_num [cleanTrainingTiles, bbox_intersection, List.filter]

/-- Counterexample to claim C4 as stated: with a single target class of
frequency 0 the raw values are `[0, 0]`, so `max = min` and the source divides
by zero (numpy produces `0/0 = NaN`; in this exact model the quotient is `0`,
landing every value on `radius_min = 10`).  The guarded normalization the
claim describes would instead give the midpoint value `20` for
`[radius_min, radius_max] = [10, 30]`; the two computations disagree. -/
theorem radiusValues_no_degenerate_guard :
    radiusValues [0] 10 30 = [10, 10] ∧
    radiusValuesSpec [0] 10 30 = [20, 20] ∧
    radiusValues [0] 10 30 ≠ radiusValuesSpec [0] 10 30 := by
  have h1 : radiusValues [0] 10 30 = [10, 10] := by norm_num [radiusValues]
  have h2 : radiusValuesSpec [0] 10 30 = [20, 20] := by norm_num [radiusValuesSpec]
  refine ⟨h1, h2, ?_⟩
  rw [h1, h2]
  norm_num

/-- Claim C1 (code bug): when no Phase-2 candidate has bbox intersection with
the selected validation region below 10 px², `findAreas` does not report an
explicit "no disjoint region found" condition — the selection loop falls
through with `test_area` unassigned and the `return` raises
`UnboundLocalError` (the `none` of this model).  Here the single candidate is
the validation region itself, whose self-intersection is 225 ≥ 10. -/
theorem selectAreas_none_when_all_overlap :
    selectAreas [⟨⟨0, 0, 15, 15⟩, 0⟩] = none := by
  norm_num [selectAreas, List.insertionSort, List.orderedInsert, List.find?,
    bbox_intersection, max_def, min_def]

/-- `List.find?` characterization: a successful search splits the list into a
prefix of failures, the found element, and a suffix. -/
lemma find?_decomp {α : Type} (p : α → Bool) :
    ∀ (l : List α) (a : α), l.find? p = some a →
      p a = true ∧ ∃ l1 l2, l = l1 ++ a :: l2 ∧ ∀ x ∈ l1, p x = false := by
  intro l
  induction l with
  | nil => intro a h; simp at h
  | cons b t ih =>
    intro a h
    by_cases hb : p b = true
    · rw [List.find?_cons_of_pos _ hb] at h
      obtain rfl : b = a := by injection h
      exact ⟨hb, [], t, rfl, by simp⟩
    · have hb' : p b = false := by simpa using hb
      rw [List.find?_cons_of_neg _ hb] at h
      obtain ⟨hp, l1, l2, hdec, hall⟩ := ih a h
      refine ⟨hp, b :: l1, l2, by rw [hdec, List.cons_append], ?_⟩
      intro x hx
      rcases List.mem_cons.mp hx with hx | hx
      · exact hx ▸ hb'
      · exact hall x hx

/-- Claim C2: when the Phase-2 selection succeeds, the returned validation
region is (the box of) a candidate of minimal aggregated score, and the
returned test region is (the box of) a candidate whose bbox intersection with
the validation region is strictly below 10, such that every candidate of
strictly smaller score has intersection at least 10 — i.e. the first candidate
in ascending score order below the 10 px² threshold. -/
theorem selectAreas_sorted_selection :
    ∀ (cands : List Candidate) (v t : Box),
      selectAreas cands = some (v, t) →
      ((∃ cv ∈ cands, cv.box = v ∧ ∀ c ∈ cands, cv.score ≤ c.score) ∧
       (∃ ct ∈ cands, ct.box = t ∧ bbox_intersection v ct.box < 10 ∧
         ∀ c ∈ cands, c.score < ct.score → 10 ≤ bbox_intersection v c.box)) := by
  intro cands v t hsel
  have hperm : (cands.insertionSort scoreLe).Perm cands :=
    List.perm_insertionSort scoreLe cands
  have hsorted : List.Sorted scoreLe (cands.insertionSort scoreLe) :=
    List.sorted_insertionSort scoreLe cands
  unfold selectAreas at hsel
  cases hc : cands.insertionSort scoreLe with
  | nil => rw [hc] at hsel; simp at hsel
  | cons val rest =>
    rw [hc] at hsel
    rw [hc] at hperm hsorted
    simp only [Option.map_eq_some'] at hsel
    obtain ⟨ct, hfind, heq⟩ := hsel
    have hv : val.box = v := by simpa using congrArg Prod.fst heq
    have ht : ct.box = t := by simpa using congrArg Prod.snd heq
    obtain ⟨hp, l1, l2, hdec, hall⟩ := find?_decomp _ _ _ hfind
    have hmemct : ct ∈ val :: rest := by rw [hdec]; exact List.mem_append_right _ (List.mem_cons_self _ _)
    constructor
    · refine ⟨val, hperm.mem_iff.mp (List.mem_cons_self _ _), hv, ?_⟩
      intro c hc2
      rcases List.mem_cons.mp (hperm.mem_iff.mpr hc2) with h | h
      · exact h ▸ le_refl _
      · exact (List.sorted_cons.mp hsorted).1 c h
    · refine ⟨ct, hperm.mem_iff.mp hmemct, ht, ?_, ?_⟩
      · rw [← hv]; exact of_decide_eq_true hp
      · intro c hc2 hlt
        rw [← hv]
        by_contra hcon
        push_neg at hcon
        have hcmem : c ∈ l1 ++ ct :: l2 := by
          rw [← hdec]; exact hperm.mem_iff.mpr hc2
        rcases List.mem_append.mp hcmem with h | h
        · have := hall c h
          rw [decide_eq_false_iff_not] at this
          exact this hcon
        · rcases List.mem_cons.mp h with h | h
          · exact absurd hlt (by rw [h]; exact lt_irrefl _)
          · have hpair : List.Pairwise scoreLe (l1 ++ ct :: l2) := by
              rw [← hdec]; exact hsorted
            have h2 := (List.pairwise_append.mp hpair).2.1
            have := (List.pairwise_cons.mp h2).1 c h
            exact absurd hlt (not_lt.mpr this)

/-- Witness for C2: a concrete two-candidate selection; the lower-score
candidate becomes the validation region and the disjoint candidate the test
region. -/
theorem selectAreas_sorted_selection_witness :
    (∃ cv ∈ ([⟨⟨0, 0, 15, 15⟩, 5⟩, ⟨⟨100, 100, 15, 15⟩, 1⟩] : List Candidate),
        cv.box = ⟨100, 100, 15, 15⟩ ∧
        ∀ c ∈ ([⟨⟨0, 0, 15, 15⟩, 5⟩, ⟨⟨100, 100, 15, 15⟩, 1⟩] : List Candidate),
          cv.score ≤ c.score) ∧
    (∃ ct ∈ ([⟨⟨0, 0, 15, 15⟩, 5⟩, ⟨⟨100, 100, 15, 15⟩, 1⟩] : List Candidate),
        ct.box = ⟨0, 0, 15, 15⟩ ∧
        bbox_intersection ⟨100, 100, 15, 15⟩ ct.box < 10 ∧
        ∀ c ∈ ([⟨⟨0, 0, 15, 15⟩, 5⟩, ⟨⟨100, 100, 15, 15⟩, 1⟩] : List Candidate),
          c.score < ct.score → 10 ≤ bbox_intersection ⟨100, 100, 15, 15⟩ c.box) :=
  selectAreas_sorted_selection _ ⟨100, 100, 15, 15⟩ ⟨0, 0, 15, 15⟩ (by
    norm_num [selectAreas, List.insertionSort, List.orderedInsert, List.find?,
      bbox_intersection, max_def, min_def, scoreLe])

/-- The population variance of a one-element sample is zero. -/
lemma popVar_singleton (a : ℚ) : popVar [a] = 0 := by
  simp [popVar, mean]

/-- Indexing with default into a map over `List.range`. -/
lemma getD_range_map {β : Type} (f : ℕ → β) (n i : ℕ) (d : β) (hi : i < n) :
    ((List.range n).map f).getD i d = f i := by
  rw [List.getD_eq_getElem?_getD, List.getElem?_map, List.getElem?_range hi]
  rfl

/-- Claim C6: the PSCV of a class is `100 · (population standard deviation) /
mean` of the collected areas when at least one entity is counted and `0`
otherwise; in particular it is `0` whenever at most one entity is counted, for
any region, and on the two-element list `[2, 4]` it equals `100/3` (the
population deviation `1`, not the Bessel-corrected `√2`). -/
theorem calculateMetrics_pscv_population :
    (∀ (blobs : List Blob) (freqs : List ℚ) (area : Box) (tcs : List String)
        (i : ℕ) (v : ℝ),
        pscvIs (collectAreas blobs freqs area tcs i) v →
        (collectAreas blobs freqs area tcs i).length ≤ 1 → v = 0) ∧
    (∀ v : ℝ, pscvIs [2, 4] v → v = 100 / 3) := by
  constructor
  · intro blobs freqs area tcs i v h hlen
    rcases hl : collectAreas blobs freqs area tcs i with _ | ⟨a, l2⟩
    · rw [hl] at h
      simpa [pscvIs] using h
    · rw [hl] at h hlen
      have hl2 : l2 = [] := by
        simp only [List.length_cons] at hlen
        exact List.eq_nil_of_length_eq_zero (by omega)
      subst hl2
      rw [pscvIs] at h
      simp only [List.length_singleton, Nat.lt_irrefl, if_pos (by omega : 0 < 1)] at h
      rw [popVar_singleton] at h
      simpa using h
  · intro v h
    have hvar : popVar [2, 4] = 1 := by norm_num [popVar, mean]
    have hmean : mean [2, 4] = 3 := by norm_num [mean]
    rw [pscvIs] at h
    simp only [List.length_cons, if_pos (by simp : 0 < [(2:ℚ), 4].length)] at h
    rw [hvar, hmean] at h
    push_cast at h
    rw [Real.sqrt_one] at h
    rw [h]
    norm_num

/-- Witness for C6: a class with no collected entity (frequency 0) has PSCV 0. -/
theorem calculateMetrics_pscv_population_witness :
    pscvIs (collectAreas [] [] ⟨0, 0, 0, 0⟩ [] 0) 0 ∧ (0 : ℝ) = 0 :=
  ⟨by simp [pscvIs, collectAreas],
   calculateMetrics_pscv_population.1 [] [] ⟨0, 0, 0, 0⟩ [] 0 0
     (by simp [pscvIs, collectAreas]) (by simp [collectAreas])⟩

/-- A concrete blob used by witnesses: class "A", bounding box
`[0, 0, 10, 10]`, area 50, full mask. -/
def blobA : Blob :=
  ⟨"A", 0, 0, 10, 10, 50, fun _ _ => 1⟩

/-- Claim C10: for a target class whose precomputed frequency is 0,
`calculateMetrics` reports count 0 and an empty collected-areas list (hence
PSCV 0) no matter which blobs lie inside the region — the per-entity 3/4-rule
loop is skipped entirely; and with `frequencies = none` (i.e.
`computeFrequencies` never ran) `calculateMetrics` fails. -/
theorem calculateMetrics_zero_frequency :
    (∀ (blobs : List Blob) (labels : ℤ → ℤ → ℕ) (freqs : List ℚ) (area : IBox)
        (tcs : List String) (i : ℕ) (counts : List ℕ) (cov : List ℚ)
        (al : List (List ℚ)) (v : ℝ),
        calculateMetrics blobs labels (some freqs) area tcs = some (counts, cov, al) →
        i < tcs.length →
        freqs.getD i 0 = 0 →
        counts.getD i 0 = 0 ∧ al.getD i [] = [] ∧ (pscvIs (al.getD i []) v → v = 0)) ∧
    (∀ (blobs : List Blob) (labels : ℤ → ℤ → ℕ) (area : IBox) (tcs : List String),
        calculateMetrics blobs labels none area tcs = none) := by
  constructor
  · intro blobs labels freqs area tcs i counts cov al v h hi hfreq
    rw [calculateMetrics] at h
    simp only [Option.some.injEq, Prod.mk.injEq] at h
    obtain ⟨hcounts, -, hal⟩ := h
    have hcoll : collectAreas blobs freqs area.box tcs i = [] := by
      rw [collectAreas, hfreq]
      simp
    have hgetal : al.getD i [] = collectAreas blobs freqs area.box tcs i := by
      rw [← hal, getD_range_map _ _ _ _ hi]
    have hgetc : counts.getD i 0 = 0 := by
      rw [← hcounts, List.map_map, getD_range_map _ _ _ _ hi]
      simp [Function.comp, hcoll]
    refine ⟨hgetc, by rw [hgetal, hcoll], ?_⟩
    intro hp
    rw [hgetal, hcoll] at hp
    simpa [pscvIs] using hp
  · intro blobs labels area tcs
    rfl

/-- Witness for C10: a blob of class "A" is present, yet with frequency 0 the
count is 0 and the collected list empty. -/
theorem calculateMetrics_zero_frequency_witness :
    ([0] : List ℕ).getD 0 0 = 0 ∧ ([[]] : List (List ℚ)).getD 0 [] = [] ∧
      (pscvIs (([[]] : List (List ℚ)).getD 0 []) 0 → (0 : ℝ) = 0) :=
  calculateMetrics_zero_frequency.1 [blobA] (fun _ _ => 0) [0] ⟨0, 0, 1, 1⟩ ["A"]
    0 [0] [0] [[]] 0
    (by simp [calculateMetrics, collectAreas, computeExactCoverage, IBox.box,
          List.range_succ, blobA])
    (by norm_num) (by simp)

/-- Python's `int` truncation agrees with the floor on nonnegative values. -/
lemma pyInt_of_nonneg {q : ℚ} (h : 0 ≤ q) : pyInt q = ⌊q⌋ := if_pos h

/-- Claim C7: `sampleAreaUniformly` is a function of its inputs (hence
deterministic) returning exactly `rows * cols` tile centers, where
`cols = 1 + ⌊width / step⌋` and `rows = 1 + ⌊height / step⌋`; each grid
position `(row, col)` yields the center obtained from the region corner by the
truncated half-slack margins `deltaW`/`deltaH`, the `(tile_size - crop_size)/2`
centering offset, the `step`-spaced grid displacement, and the half-tile
shift. -/
theorem sampleAreaUniformly_grid :
    ∀ (crop_size : ℤ) (area : Box) (tile_size step : ℤ),
      0 < step → 0 ≤ area.w → 0 ≤ area.h →
      ((sampleAreaUniformly crop_size area tile_size step).length =
        (1 + ⌊area.h / (step : ℚ)⌋).toNat * (1 + ⌊area.w / (step : ℚ)⌋).toNat) ∧
      (∀ row col : ℕ,
        row < (1 + ⌊area.h / (step : ℚ)⌋).toNat →
        col < (1 + ⌊area.w / (step : ℚ)⌋).toNat →
        (area.left + (pyInt ((area.w - (((1 + ⌊area.w / (step : ℚ)⌋) * step : ℤ) : ℚ)) / 2) : ℚ)
            - (pyInt (((tile_size - crop_size : ℤ) : ℚ) / 2) : ℚ)
            + (col : ℚ) * (step : ℚ) + (tile_size : ℚ) / 2,
         area.top + (pyInt ((area.h - (((1 + ⌊area.h / (step : ℚ)⌋) * step : ℤ) : ℚ)) / 2) : ℚ)
            - (pyInt (((tile_size - crop_size : ℤ) : ℚ) / 2) : ℚ)
            + (row : ℚ) * (step : ℚ) + (tile_size : ℚ) / 2)
          ∈ sampleAreaUniformly crop_size area tile_size step) := by
  intro crop_size area tile_size step hstep hw hh
  have hstepq : (0 : ℚ) < (step : ℚ) := by exact_mod_cast hstep
  have hcols : pyInt (area.w / (step : ℚ)) = ⌊area.w / (step : ℚ)⌋ :=
    pyInt_of_nonneg (div_nonneg hw hstepq.le)
  have hrows : pyInt (area.h / (step : ℚ)) = ⌊area.h / (step : ℚ)⌋ :=
    pyInt_of_nonneg (div_nonneg hh hstepq.le)
  constructor
  · simp only [sampleAreaUniformly, hcols, hrows, List.length_flatMap]
    simp [Function.comp_def, List.length_map, List.length_range, List.map_const',
      List.sum_replicate, smul_eq_mul]
  · intro row col hrow hcol
    simp only [sampleAreaUniformly, hcols, hrows, List.mem_flatMap, List.mem_map,
      List.mem_range]
    exact ⟨row, hrow, col, hcol, rfl⟩

/-- Witness for C7: a `100 × 50` region with `step = 30` yields a `2 × 4`
grid, and the `(row, col) = (1, 2)` center is produced. -/
theorem sampleAreaUniformly_grid_witness :
    ((sampleAreaUniformly 513 ⟨0, 0, 100, 50⟩ 512 30).length =
      (1 + ⌊(50 : ℚ) / (30 : ℚ)⌋).toNat * (1 + ⌊(100 : ℚ) / (30 : ℚ)⌋).toNat) ∧
    (((0 : ℚ) + (pyInt (((100 : ℚ) - (((1 + ⌊(100 : ℚ) / (30 : ℚ)⌋) * 30 : ℤ) : ℚ)) / 2) : ℚ)
        - (pyInt ((((512 : ℤ) - 513 : ℤ) : ℚ) / 2) : ℚ)
        + ((2 : ℕ) : ℚ) * (30 : ℚ) + ((512 : ℤ) : ℚ) / 2,
      (0 : ℚ) + (pyInt (((50 : ℚ) - (((1 + ⌊(50 : ℚ) / (30 : ℚ)⌋) * 30 : ℤ) : ℚ)) / 2) : ℚ)
        - (pyInt ((((512 : ℤ) - 513 : ℤ) : ℚ) / 2) : ℚ)
        + ((1 : ℕ) : ℚ) * (30 : ℚ) + ((512 : ℤ) : ℚ) / 2)
      ∈ sampleAreaUniformly 513 ⟨0, 0, 100, 50⟩ 512 30) :=
  ⟨(sampleAreaUniformly_grid 513 ⟨0, 0, 100, 50⟩ 512 30 (by norm_num) (by norm_num)
      (by norm_num)).1,
   (sampleAreaUniformly_grid 513 ⟨0, 0, 100, 50⟩ 512 30 (by norm_num) (by norm_num)
      (by norm_num)).2 1 2 (by norm_num [Int.toNat_ofNat]) (by norm_num [Int.toNat_ofNat])⟩

/-! ### The variable-radius Poisson-disk invariant and the sampler loops. -/

/-- Squared distances are symmetric. -/
lemma sqDist_comm (p q : ℤ × ℤ) : sqDist p q = sqDist q p := by
  unfold sqDist
  push_cast
  ring

/-- Squared distances are nonnegative. -/
lemma sqDist_nonneg (p q : ℤ × ℤ) : 0 ≤ sqDist p q := by
  unfold sqDist
  have h1 := mul_self_nonneg (((p.1 - q.1 : ℤ) : ℚ))
  have h2 := mul_self_nonneg (((p.2 - q.2 : ℤ) : ℚ))
  linarith

/-- Every pair of distinct points of `l` passes the separation test. -/
def pairwiseSeparated (R : ℤ → ℤ → ℚ) (l : List (ℤ × ℤ)) : Prop :=
  ∀ p ∈ l, ∀ q ∈ l, p ≠ q → sqrtLt (sqDist p q) (R p.2 p.1 + R q.2 q.1) = false

/-- An accepted candidate keeps the sample list pairwise separated. -/
lemma pairwiseSeparated_append {R : ℤ → ℤ → ℚ} {l : List (ℤ × ℤ)} {p : ℤ × ℤ}
    (hl : pairwiseSeparated R l) (hp : acceptOk R l p = true) :
    pairwiseSeparated R (l ++ [p]) := by
  have hacc : ∀ s ∈ l, sqrtLt (sqDist s p) (R p.2 p.1 + R s.2 s.1) = false := by
    intro s hs
    have := List.all_eq_true.mp hp s hs
    simpa using this
  intro a ha b hb hne
  rw [List.mem_append, List.mem_singleton] at ha hb
  rcases ha with ha | ha <;> rcases hb with hb | hb
  · exact hl a ha b hb hne
  · subst hb
    have h := hacc a ha
    rwa [add_comm] at h
  · subst ha
    have h := hacc b hb
    rwa [sqDist_comm] at h
  · exact absurd (ha.trans hb.symm) hne

/-- Fold preservation of an invariant. -/
lemma foldl_preserves {σ α : Type} (Inv : σ → Prop) (f : σ → α → σ)
    (hf : ∀ s a, Inv s → Inv (f s a)) :
    ∀ (l : List α) (s : σ), Inv s → Inv (l.foldl f s) := by
  intro l
  induction l with
  | nil => intro s h; exact h
  | cons a t ih => intro s h; exact ih _ (hf s a h)

/-- `blobStep` preserves pairwise separation. -/
lemma blobStep_pairwise (R : ℤ → ℤ → ℚ) (g : ℕ → ℤ) (blob : Blob)
    (s : List (ℤ × ℤ) × ℕ) (i : ℕ) (hs : pairwiseSeparated R s.1) :
    pairwiseSeparated R (blobStep R g blob s i).1 := by
  unfold blobStep
  dsimp only
  split_ifs with h1 h2
  · exact pairwiseSeparated_append hs h2
  · exact hs
  · exact hs

/-- `subAreaStep` preserves pairwise separation. -/
lemma subAreaStep_pairwise (R : ℤ → ℤ → ℚ) (g : ℕ → ℤ) (area : IBox)
    (s : List (ℤ × ℤ) × ℕ) (i : ℕ) (hs : pairwiseSeparated R s.1) :
    pairwiseSeparated R (subAreaStep R g area s i).1 := by
  unfold subAreaStep
  dsimp only
  split_ifs with h1
  · exact pairwiseSeparated_append hs h1
  · exact hs

/-- `importanceSamplingBlob` preserves pairwise separation. -/
lemma importanceSamplingBlob_pairwise (R : ℤ → ℤ → ℚ) (g : ℕ → ℤ) (blob : Blob)
    (st : List (ℤ × ℤ) × ℕ) (h : pairwiseSeparated R st.1) :
    pairwiseSeparated R (importanceSamplingBlob R g blob st).1 := by
  unfold importanceSamplingBlob
  exact foldl_preserves (fun (s : List (ℤ × ℤ) × ℕ) => pairwiseSeparated R s.1) _
    (blobStep_pairwise R g blob) _ _ h

/-- `importanceSamplingSubArea` preserves pairwise separation. -/
lemma importanceSamplingSubArea_pairwise (R : ℤ → ℤ → ℚ) (g : ℕ → ℤ)
    (area : IBox) (st : List (ℤ × ℤ) × ℕ) (h : pairwiseSeparated R st.1) :
    pairwiseSeparated R (importanceSamplingSubArea R g area st).1 := by
  unfold importanceSamplingSubArea
  exact foldl_preserves (fun (s : List (ℤ × ℤ) × ℕ) => pairwiseSeparated R s.1) _
    (subAreaStep_pairwise R g area) _ _ h

/-- The whole importance-sampling run keeps its sample list pairwise
separated. -/
lemma sampleAreaImportanceSampling_pairwise (R : ℤ → ℤ → ℚ) (g : ℕ → ℤ)
    (blobs : List Blob) (area : IBox) :
    pairwiseSeparated R (sampleAreaImportanceSampling R g blobs area) := by
  unfold sampleAreaImportanceSampling
  refine foldl_preserves (fun (s : List (ℤ × ℤ) × ℕ) => pairwiseSeparated R s.1) _ ?_ _ _
    (foldl_preserves (fun (s : List (ℤ × ℤ) × ℕ) => pairwiseSeparated R s.1) _ ?_ _ _ ?_)
  · intro s row hsrow
    refine foldl_preserves (fun (s : List (ℤ × ℤ) × ℕ) => pairwiseSeparated R s.1) _ ?_ _ _ hsrow
    intro s col hscol
    exact importanceSamplingSubArea_pairwise R g _ s hscol
  · intro s cn hscn
    refine foldl_preserves (fun (s : List (ℤ × ℤ) × ℕ) => pairwiseSeparated R s.1) _ ?_ _ _ hscn
    intro s blob hsb
    dsimp only
    split_ifs
    · exact importanceSamplingBlob_pairwise R g blob s hsb
    · exact hsb
  · intro p hp
    simp at hp

/-- A failed rejection comparison bounds the real distance from below by the
radius average: `sqrtLt dsq s = false` with `dsq ≥ 0` gives
`s / 2 ≤ √dsq`. -/
lemma sqrtLt_eq_false_imp_le_sqrt {dsq s : ℚ} (hd : 0 ≤ dsq)
    (h : sqrtLt dsq s = false) : ((s : ℝ)) / 2 ≤ Real.sqrt ((dsq : ℚ) : ℝ) := by
  rw [sqrtLt, Bool.and_eq_false_iff] at h
  rcases h with h | h
  · have hs : s ≤ 0 := not_lt.mp (by simpa using h)
    have hs' : ((s : ℝ)) ≤ 0 := by exact_mod_cast hs
    have := Real.sqrt_nonneg ((dsq : ℚ) : ℝ)
    linarith
  · have hss : s * s ≤ 4 * dsq := not_lt.mp (by simpa using h)
    have hsq : ((s : ℝ) / 2) ^ 2 ≤ ((dsq : ℚ) : ℝ) := by
      have : ((s : ℝ)) * s ≤ 4 * ((dsq : ℚ) : ℝ) := by exact_mod_cast hss
      nlinarith
    rcases le_or_lt ((s : ℝ) / 2) 0 with hneg | hpos
    · have := Real.sqrt_nonneg ((dsq : ℚ) : ℝ)
      linarith
    · have hdr : (0 : ℝ) ≤ ((dsq : ℚ) : ℝ) := by exact_mod_cast hd
      exact (Real.le_sqrt hpos.le hdr).mpr hsq

/-- Claim C5: variable-radius Poisson-disk invariant — any two distinct points
accepted during the same importance-sampling run (per-entity phase and
grid-cell phase together) are at least `(radius(p) + radius(q)) / 2` apart,
where radius is the radius-field value at the point. -/
theorem importanceSampling_separation :
    ∀ (R : ℤ → ℤ → ℚ) (g : ℕ → ℤ) (blobs : List Blob) (area : IBox)
      (p q : ℤ × ℤ),
      p ∈ sampleAreaImportanceSampling R g blobs area →
      q ∈ sampleAreaImportanceSampling R g blobs area →
      p ≠ q →
      ((R p.2 p.1 + R q.2 q.1 : ℚ) : ℝ) / 2 ≤ Real.sqrt ((sqDist p q : ℚ) : ℝ) :=
  fun R g blobs area p q hp hq hne =>
    sqrtLt_eq_false_imp_le_sqrt (sqDist_nonneg p q)
      (sampleAreaImportanceSampling_pairwise R g blobs area p hp q hq hne)

/-! ### Closed-form runs of the sampler loops, used to settle the sampler
claims on concrete inputs. -/

/-- With an all-zero radius map every candidate passes the acceptance test. -/
lemma acceptOk_of_zeroR {R : ℤ → ℤ → ℚ} (hR : ∀ x y, R x y = 0)
    (l : List (ℤ × ℤ)) (p : ℤ × ℤ) : acceptOk R l p = true := by
  simp [acceptOk, sqrtLt, hR]

/-- Every loop iteration advances the stream index by two. -/
lemma foldl_snd_add {α : Type} (f : List (ℤ × ℤ) × ℕ → α → List (ℤ × ℤ) × ℕ)
    (hf : ∀ s a, (f s a).2 = s.2 + 2) :
    ∀ (l : List α) (st : List (ℤ × ℤ) × ℕ),
      (l.foldl f st).2 = st.2 + 2 * l.length := by
  intro l
  induction l with
  | nil => intro st; simp
  | cons a t ih =>
    intro st
    rw [List.foldl_cons, ih, hf, List.length_cons]
    ring

/-- A loop whose body either keeps the list or appends one point satisfying
`P` extends the initial list by at most one such point per iteration. -/
lemma foldl_extend {α : Type} (f : List (ℤ × ℤ) × ℕ → α → List (ℤ × ℤ) × ℕ)
    (P : ℤ × ℤ → Prop)
    (hf : ∀ s a, (f s a).1 = s.1 ∨ ∃ p, P p ∧ (f s a).1 = s.1 ++ [p]) :
    ∀ (l : List α) (st : List (ℤ × ℤ) × ℕ),
      ∃ new, (l.foldl f st).1 = st.1 ++ new ∧ new.length ≤ l.length ∧
        ∀ p ∈ new, P p := by
  intro l
  induction l with
  | nil => intro st; exact ⟨[], by simp, by simp, by simp⟩
  | cons a t ih =>
    intro st
    obtain ⟨new, hnew, hlen, hP⟩ := ih (f st a)
    rw [List.foldl_cons]
    rcases hf st a with h | ⟨p, hp, h⟩
    · rw [h] at hnew
      exact ⟨new, hnew, by simp; omega, hP⟩
    · rw [h] at hnew
      refine ⟨p :: new, ?_, by simp; omega, ?_⟩
      · rw [hnew, List.append_assoc, List.singleton_append]
      · intro q hq
        rcases List.mem_cons.mp hq with hq | hq
        · exact hq ▸ hp
        · exact hP q hq

/-- A loop whose body always appends the draw `d` at the current stream index
produces exactly the list of its draws. -/
lemma foldl_allAppend (f : List (ℤ × ℤ) × ℕ → ℕ → List (ℤ × ℤ) × ℕ)
    (d : ℕ → ℤ × ℤ)
    (hf : ∀ (l : List (ℤ × ℤ)) (n : ℕ) (a : ℕ), f (l, n) a = (l ++ [d n], n + 2)) :
    ∀ (l : List ℕ) (sl : List (ℤ × ℤ)) (sn : ℕ),
      l.foldl f (sl, sn) =
        (sl ++ (List.range l.length).map (fun i => d (sn + 2 * i)),
         sn + 2 * l.length) := by
  intro l
  induction l with
  | nil => intro sl sn; simp
  | cons a t ih =>
    intro sl sn
    rw [List.foldl_cons, hf, ih]
    refine Prod.ext ?_ ?_
    · dsimp only
      rw [List.length_cons, List.range_succ_eq_map, List.map_cons, List.map_map]
      simp only [Function.comp_def, mul_zero, add_zero, List.append_assoc,
        List.singleton_append]
      congr 1
      congr 1
      apply List.map_congr_left
      intro i hi
      congr 1
      omega
    · dsimp only
      rw [List.length_cons]
      ring

/-- A loop whose body fixes the list `L` leaves `L` unchanged. -/
lemma foldl_fixedList (f : List (ℤ × ℤ) × ℕ → ℕ → List (ℤ × ℤ) × ℕ)
    (L : List (ℤ × ℤ))
    (hf : ∀ (n : ℕ) (a : ℕ), f (L, n) a = (L, n + 2)) :
    ∀ (l : List ℕ) (n : ℕ), l.foldl f (L, n) = (L, n + 2 * l.length) := by
  intro l
  induction l with
  | nil => intro n; simp
  | cons a t ih =>
    intro n
    rw [List.foldl_cons, hf, ih]
    refine Prod.ext rfl ?_
    dsimp only
    rw [List.length_cons]
    ring

/-- A loop that accepts its first draw as `L` and then rejects everything
reaches the fixed list `L`. -/
lemma foldl_from_empty (f : List (ℤ × ℤ) × ℕ → ℕ → List (ℤ × ℤ) × ℕ)
    (L : List (ℤ × ℤ))
    (h0 : ∀ (n : ℕ) (a : ℕ), f ([], n) a = (L, n + 2))
    (hf : ∀ (n : ℕ) (a : ℕ), f (L, n) a = (L, n + 2)) :
    ∀ (l : List ℕ) (n : ℕ), l ≠ [] → l.foldl f ([], n) = (L, n + 2 * l.length) := by
  intro l n hne
  cases l with
  | nil => exact absurd rfl hne
  | cons a t =>
    rw [List.foldl_cons, h0, foldl_fixedList f L hf t]
    refine Prod.ext rfl ?_
    dsimp only
    rw [List.length_cons]
    ring

/-- Each `blobStep` advances the stream index by two. -/
lemma blobStep_snd (R : ℤ → ℤ → ℚ) (g : ℕ → ℤ) (blob : Blob)
    (s : List (ℤ × ℤ) × ℕ) (i : ℕ) : (blobStep R g blob s i).2 = s.2 + 2 := by
  unfold blobStep
  dsimp only
  split_ifs <;> rfl

/-- Each `blobStep` either keeps the list or appends one point whose local
coordinates lie inside the blob's mask. -/
lemma blobStep_fst_cases (R : ℤ → ℤ → ℚ) (g : ℕ → ℤ) (blob : Blob)
    (s : List (ℤ × ℤ) × ℕ) (i : ℕ) :
    (blobStep R g blob s i).1 = s.1 ∨
      ∃ p, blob.mask (p.2 - blob.bboxTop) (p.1 - blob.bboxLeft) = 1 ∧
        (blobStep R g blob s i).1 = s.1 ++ [p] := by
  unfold blobStep
  dsimp only
  split_ifs with h1 h2
  · right
    refine ⟨(randint 1 (blob.bboxW - 1) (g s.2) + blob.bboxLeft,
             randint 1 (blob.bboxH - 1) (g (s.2 + 1)) + blob.bboxTop), ?_, rfl⟩
    simpa using h1
  · left; rfl
  · left; rfl

/-- With an all-zero radius map and a full mask, a `blobStep` always appends
its draw. -/
lemma blobStep_allaccept {R : ℤ → ℤ → ℚ} (hR : ∀ x y, R x y = 0) (g : ℕ → ℤ)
    {blob : Blob} (hmask : ∀ x y, blob.mask x y = 1)
    (l : List (ℤ × ℤ)) (n : ℕ) (a : ℕ) :
    blobStep R g blob (l, n) a =
      (l ++ [(randint 1 (blob.bboxW - 1) (g n) + blob.bboxLeft,
              randint 1 (blob.bboxH - 1) (g (n + 1)) + blob.bboxTop)], n + 2) := by
  unfold blobStep
  dsimp only
  rw [hmask, if_pos rfl, acceptOk_of_zeroR hR, if_pos rfl]

/-- With an all-zero radius map, a `subAreaStep` always appends its draw. -/
lemma subAreaStep_allaccept {R : ℤ → ℤ → ℚ} (hR : ∀ x y, R x y = 0) (g : ℕ → ℤ)
    (area : IBox) (l : List (ℤ × ℤ)) (n : ℕ) (a : ℕ) :
    subAreaStep R g area (l, n) a =
      (l ++ [(randint area.left (area.left + area.w - 1) (g n),
              randint area.top (area.top + area.h - 1) (g (n + 1)))], n + 2) := by
  unfold subAreaStep
  dsimp only
  rw [acceptOk_of_zeroR hR, if_pos rfl]

/-- A concrete blob used on concrete sampler runs: one of the rare classes,
bounding box `[0, 0, 3, 3]`, full mask (every draw `randint(1, 2)` lands
inside it). -/
def blobOnes : Blob := ⟨"Pocillopora", 0, 0, 3, 3, 1, fun _ _ => 1⟩

/-- With the all-zero radius map and the zero stream, every `blobStep` on
`blobOnes` appends the draw `(1, 1)`. -/
lemma blobStep_blobOnes_zero (l : List (ℤ × ℤ)) (n : ℕ) (a : ℕ) :
    blobStep (fun _ _ => 0) (fun _ => 0) blobOnes (l, n) a = (l ++ [(1, 1)], n + 2) := by
  rw [blobStep_allaccept (fun _ _ => rfl) (fun _ => 0) (fun _ _ => rfl)]
  norm_num [blobOnes, randint]

/-- With the constant radius map `100` and the zero stream, the first
`blobStep` on `blobOnes` accepts its draw `(1, 1)`. -/
lemma blobStep_blobOnes_first (n : ℕ) (a : ℕ) :
    blobStep (fun _ _ => 100) (fun _ => 0) blobOnes ([], n) a = ([(1, 1)], n + 2) := by
  unfold blobStep
  dsimp only
  rw [show blobOnes.mask (randint 1 (blobOnes.bboxH - 1) ((fun _ => (0 : ℤ)) (n + 1)))
        (randint 1 (blobOnes.bboxW - 1) ((fun _ => (0 : ℤ)) n)) = 1 from rfl,
    if_pos rfl, show acceptOk (fun _ _ => 100) ([] : List (ℤ × ℤ)) _ = true from rfl,
    if_pos rfl]
  norm_num [blobOnes, randint]

/-- With the constant radius map `100` and the zero stream, every further
`blobStep` on `blobOnes` rejects its draw `(1, 1)` (distance 0 to the point
already accepted, radius average 100). -/
lemma blobStep_blobOnes_reject (n : ℕ) (a : ℕ) :
    blobStep (fun _ _ => 100) (fun _ => 0) blobOnes ([(1, 1)], n) a = ([(1, 1)], n + 2) := by
  unfold blobStep
  dsimp only
  rw [show blobOnes.mask (randint 1 (blobOnes.bboxH - 1) ((fun _ => (0 : ℤ)) (n + 1)))
        (randint 1 (blobOnes.bboxW - 1) ((fun _ => (0 : ℤ)) n)) = 1 from rfl,
    if_pos rfl]
  rw [if_neg]
  intro hacc
  have h := List.all_eq_true.mp hacc (1, 1) (by simp)
  have hpt : randint 1 (blobOnes.bboxW - 1) ((fun _ => (0 : ℤ)) n) + blobOnes.bboxLeft = 1 ∧
      randint 1 (blobOnes.bboxH - 1) ((fun _ => (0 : ℤ)) (n + 1)) + blobOnes.bboxTop = 1 := by
    norm_num [blobOnes, randint]
  rw [hpt.1, hpt.2] at h
  rw [show sqrtLt (sqDist (1, 1) (1, 1))
        ((fun _ _ => (100 : ℚ)) 1 1 + (fun _ _ => (100 : ℚ)) 1 1) = true from ?_] at h
  · simp at h
  · rw [sqrtLt]
    norm_num [sqDist]

/-- Claim C3 (amended): one per-entity pass of the importance sampler draws
exactly 30 candidate points (consuming 60 stream values), appends at most 30
new points, every new point lies inside the entity's mask, and acceptance is
checked against *all* previously accepted points of the run (so the pairwise
separation of the whole shared list is preserved). -/
theorem importanceSamplingBlob_run_spec :
    ∀ (R : ℤ → ℤ → ℚ) (g : ℕ → ℤ) (blob : Blob) (st : List (ℤ × ℤ) × ℕ),
      ((importanceSamplingBlob R g blob st).2 = st.2 + 60) ∧
      (∃ new, (importanceSamplingBlob R g blob st).1 = st.1 ++ new ∧
        new.length ≤ 30 ∧
        ∀ p ∈ new, blob.mask (p.2 - blob.bboxTop) (p.1 - blob.bboxLeft) = 1) ∧
      (pairwiseSeparated R st.1 →
        pairwiseSeparated R (importanceSamplingBlob R g blob st).1) := by
  intro R g blob st
  refine ⟨?_, ?_, fun h => importanceSamplingBlob_pairwise R g blob st h⟩
  · unfold importanceSamplingBlob
    rw [foldl_snd_add _ (blobStep_snd R g blob)]
    simp
  · unfold importanceSamplingBlob
    obtain ⟨new, h1, h2, h3⟩ :=
      foldl_extend _ _ (blobStep_fst_cases R g blob) (List.range 30) st
    exact ⟨new, h1, by simpa using h2, h3⟩

/-- Witness for the amended C3: a concrete pass on `blobOnes` consumes 60
stream values and keeps the (initially empty) run pairwise separated. -/
theorem importanceSamplingBlob_run_spec_witness :
    ((importanceSamplingBlob (fun _ _ => 0) (fun _ => 0) blobOnes ([], 0)).2 = 0 + 60) ∧
    pairwiseSeparated (fun _ _ => 0)
      (importanceSamplingBlob (fun _ _ => 0) (fun _ => 0) blobOnes ([], 0)).1 :=
  ⟨(importanceSamplingBlob_run_spec (fun _ _ => 0) (fun _ => 0) blobOnes ([], 0)).1,
   (importanceSamplingBlob_run_spec (fun _ _ => 0) (fun _ => 0) blobOnes ([], 0)).2.2
     (by intro p hp q hq hne; simp at hp)⟩

/-- Counterexample to claim C3 as stated.  First part: on a full-mask blob
with an all-zero radius map the source sampler accepts 30 points — one per
draw of its `range(30)` loop — while a 1000-draw sampler (the claim's words)
accepts 1000; the per-entity loop makes 30 draws, not up to 1000.  Second
part: processing two entities in sequence (the same `blobOnes` twice, radius
map constantly 100, all draws landing on `(1, 1)`), the source run yields just
`[(1, 1)]` — the second entity's draws are rejected against the point accepted
for the *first* entity — while the claim's per-entity acceptance yields
`(1, 1)` twice. -/
theorem importanceSampling_claimC3_counterexample :
    ((importanceSamplingBlob (fun _ _ => 0) (fun _ => 0) blobOnes ([], 0)).1.length = 30 ∧
     (claimSamplingBlob (fun _ _ => 0) (fun _ => 0) blobOnes ([], 0)).1.length = 1000) ∧
    ((importanceSamplingBlob (fun _ _ => 100) (fun _ => 0) blobOnes
        (importanceSamplingBlob (fun _ _ => 100) (fun _ => 0) blobOnes ([], 0))).1
        = [(1, 1)] ∧
     (claimSamplingBlob (fun _ _ => 100) (fun _ => 0) blobOnes
        (claimSamplingBlob (fun _ _ => 100) (fun _ => 0) blobOnes ([], 0))).1
        = [(1, 1), (1, 1)]) := by
  have h30 : importanceSamplingBlob (fun _ _ => 100) (fun _ => 0) blobOnes ([], 0)
      = ([(1, 1)], 0 + 2 * (List.range 30).length) := by
    unfold importanceSamplingBlob
    exact foldl_from_empty _ _ blobStep_blobOnes_first blobStep_blobOnes_reject _ 0 (by simp)
  refine ⟨⟨?_, ?_⟩, ?_, ?_⟩
  · unfold importanceSamplingBlob
    rw [foldl_allAppend _ _ blobStep_blobOnes_zero]
    simp
  · unfold claimSamplingBlob
    dsimp only
    rw [foldl_allAppend _ _ blobStep_blobOnes_zero]
    simp only [List.nil_append, List.length_append, List.length_map,
      List.length_range]
  · rw [h30]
    unfold importanceSamplingBlob
    rw [foldl_fixedList _ _ blobStep_blobOnes_reject]
  · have hclaim1 : claimSamplingBlob (fun _ _ => 100) (fun _ => 0) blobOnes ([], 0)
        = ([(1, 1)], 0 + 2 * (List.range 1000).length) := by
      unfold claimSamplingBlob
      dsimp only
      rw [foldl_from_empty _ _ blobStep_blobOnes_first blobStep_blobOnes_reject _ 0
        (by simp)]
      rfl
    rw [hclaim1]
    unfold claimSamplingBlob
    dsimp only
    rw [foldl_from_empty _ _ blobStep_blobOnes_first blobStep_blobOnes_reject _ _
      (by simp)]
    rfl

/-- Witness for C5: a concrete importance-sampling run (no blobs, a `4 × 4`
map area clamped to one `1024 × 1024` grid cell, all-zero radius map,
identity stream) accepts the distinct points `(-1021, -1020)` and
`(-1019, -1018)`, and they satisfy the separation bound. -/
theorem importanceSampling_separation_witness :
    (((-1021 : ℤ), (-1020 : ℤ)) ∈
        sampleAreaImportanceSampling (fun _ _ => 0) (fun n => (n : ℤ)) [] ⟨0, 0, 4, 4⟩) ∧
    (((-1019 : ℤ), (-1018 : ℤ)) ∈
        sampleAreaImportanceSampling (fun _ _ => 0) (fun n => (n : ℤ)) [] ⟨0, 0, 4, 4⟩) ∧
    ((((0 : ℚ) + (0 : ℚ) : ℚ) : ℝ) / 2 ≤
      Real.sqrt ((sqDist (-1021, -1020) (-1019, -1018) : ℚ) : ℝ)) := by
  have hrun : sampleAreaImportanceSampling (fun _ _ => 0) (fun n => (n : ℤ)) []
      ⟨0, 0, 4, 4⟩ =
      (List.range 30).map (fun i =>
        (randint (-1021) (-1021 + 1024 - 1) ((0 + 2 * i : ℕ) : ℤ),
         randint (-1021) (-1021 + 1024 - 1) (((0 + 2 * i : ℕ) + 1 : ℕ) : ℤ))) := by
    unfold sampleAreaImportanceSampling
    dsimp only
    simp only [rareClasses, List.foldl_cons, List.foldl_nil]
    norm_num [pyInt]
    rw [show List.range 1 = [0] from rfl]
    simp only [List.foldl_cons, List.foldl_nil]
    norm_num
    unfold importanceSamplingSubArea
    rw [foldl_allAppend _ _
      (fun l n a => subAreaStep_allaccept (fun _ _ => rfl) (fun n => (n : ℤ)) _ l n a)]
    simp only [List.nil_append, List.length_range]
    push_cast
    rfl
  have hm1 : ((-1021 : ℤ), (-1020 : ℤ)) ∈
      sampleAreaImportanceSampling (fun _ _ => 0) (fun n => (n : ℤ)) [] ⟨0, 0, 4, 4⟩ := by
    rw [hrun]
    simp only [List.mem_map]
    exact ⟨0, by decide, by decide⟩
  have hm2 : ((-1019 : ℤ), (-1018 : ℤ)) ∈
      sampleAreaImportanceSampling (fun _ _ => 0) (fun n => (n : ℤ)) [] ⟨0, 0, 4, 4⟩ := by
    rw [hrun]
    simp only [List.mem_map]
    exact ⟨1, by decide, by decide⟩
  exact ⟨hm1, hm2,
    importanceSampling_separation (fun _ _ => 0) (fun n => (n : ℤ)) [] ⟨0, 0, 4, 4⟩
      (-1021, -1020) (-1019, -1018) hm1 hm2 (by decide)⟩

/-- A `min`-fold is bounded by its initial value. -/
lemma foldl_min_le_init (l : List ℚ) (a : ℚ) : l.foldl min a ≤ a := by
  induction l generalizing a with
  | nil => simp
  | cons b t ih =>
    rw [List.foldl_cons]
    exact le_trans (ih (min a b)) (min_le_left a b)

/-- A `min`-fold is bounded by every list element. -/
lemma foldl_min_le_mem (l : List ℚ) (a : ℚ) {x : ℚ} (hx : x ∈ l) :
    l.foldl min a ≤ x := by
  induction l generalizing a with
  | nil => simp at hx
  | cons b t ih =>
    rw [List.foldl_cons]
    rcases List.mem_cons.mp hx with h | h
    · subst h
      exact le_trans (foldl_min_le_init t (min a x)) (min_le_right a x)
    · exact ih (min a b) h

/-- A `max`-fold dominates its initial value. -/
lemma init_le_foldl_max (l : List ℚ) (a : ℚ) : a ≤ l.foldl max a := by
  induction l generalizing a with
  | nil => simp
  | cons b t ih =>
    rw [List.foldl_cons]
    exact le_trans (le_max_left a b) (ih (max a b))

/-- A `max`-fold dominates every list element. -/
lemma mem_le_foldl_max (l : List ℚ) (a : ℚ) {x : ℚ} (hx : x ∈ l) :
    x ≤ l.foldl max a := by
  induction l generalizing a with
  | nil => simp at hx
  | cons b t ih =>
    rw [List.foldl_cons]
    rcases List.mem_cons.mp hx with h | h
    · subst h
      exact le_trans (le_max_right a x) (init_le_foldl_max t (max a x))
    · exact ih (max a b) h

/-- Claim C4 (amended): `compute_radius_map` builds K+1 raw values (background
= the sum of all frequencies, value i+1 = frequencies[i]) and min-max
normalizes them to `[0,1]` rescaled to `[radius_min, radius_max]` — with no
degenerate guard: the division by `max - min` is unconditional, so the claimed
0.5-midpoint fallback does not exist (see the counterexample); whenever
`min < max` and `radius_min ≤ radius_max`, every produced value lies in
`[radius_min, radius_max]`. -/
theorem radiusValues_minmax :
    ∀ (f : List ℚ) (rmin rmax : ℚ),
      ((radiusValues f rmin rmax).length = f.length + 1) ∧
      (rmin ≤ rmax →
        (f.sum :: f).foldl min f.sum < (f.sum :: f).foldl max f.sum →
        ∀ v ∈ radiusValues f rmin rmax, rmin ≤ v ∧ v ≤ rmax) := by
  intro f rmin rmax
  constructor
  · simp [radiusValues]
  · intro hr hlt v hv
    simp only [radiusValues, List.mem_map] at hv
    obtain ⟨x, hx, rfl⟩ := hv
    have hmnx : (f.sum :: f).foldl min f.sum ≤ x := foldl_min_le_mem _ _ hx
    have hxmx : x ≤ (f.sum :: f).foldl max f.sum := mem_le_foldl_max _ _ hx
    have hden : (0 : ℚ) < (f.sum :: f).foldl max f.sum - (f.sum :: f).foldl min f.sum := by
      linarith
    have ht0 : 0 ≤ (x - (f.sum :: f).foldl min f.sum) /
        ((f.sum :: f).foldl max f.sum - (f.sum :: f).foldl min f.sum) :=
      div_nonneg (by linarith) hden.le
    have ht1 : (x - (f.sum :: f).foldl min f.sum) /
        ((f.sum :: f).foldl max f.sum - (f.sum :: f).foldl min f.sum) ≤ 1 := by
      rw [div_le_one hden]
      linarith
    constructor
    · have := mul_nonneg ht0 (by linarith : (0 : ℚ) ≤ rmax - rmin)
      linarith
    · have := mul_le_of_le_one_left (by linarith : (0 : ℚ) ≤ rmax - rmin) ht1
      linarith

/-- Witness for the amended C4: on frequencies `[1, 2]` with radius bounds
`[10, 30]` the raw values `[3, 1, 2]` have distinct bounds, the output has
length 3, and its member `30` lies within the bounds. -/
theorem radiusValues_minmax_witness :
    ((radiusValues [1, 2] 10 30).length = [(1 : ℚ), 2].length + 1) ∧
    ((10 : ℚ) ≤ 30 ∧ (30 : ℚ) ≤ 30) :=
  ⟨(radiusValues_minmax [1, 2] 10 30).1,
   (radiusValues_minmax [1, 2] 10 30).2 (by norm_num)
     (by norm_num [List.foldl_cons, List.foldl_nil, min_def, max_def])
     30 (by norm_num [radiusValues, min_def, max_def])⟩

end NewDataset
